import Mathlib

/-!
Verification development for the Varas pedestrian-evacuation simulator.

The repository provides the driver (`src/src/main.c`) and the exit data
model (`src/headers/exit.h`).  The driver's control flow (the main
simulation-set loop, `run_simulations`, `conflict_solving`, the per-timestep
phase sequence) is embedded directly from `main.c`.  The floor-field engine,
the pedestrian registry and the conflict resolver live in translation units
that are not part of the repository snapshot; those are modelled from the
specification, and each such definition is marked `Modelled from the spec`.
-/

namespace Varas

/-- A grid cell: (row, column), as in the C `Location` struct. -/
abbrev Loc := Nat × Nat

/-- Return statuses of `calculate_final_floor_field` (`Function_Status` values
used by the driver in `main.c`). -/
inductive FFStatus
  | SUCCESS
  | FAILURE
  | INACCESSIBLE_EXIT
deriving DecidableEq, Repr

/-- Floor-field values: `some q` is a finite double value, `none` is the
"infinite" sentinel marking a cell unreachable from the exit. -/
abbrev FFVal := Option ℚ

/-- Minimum of two floor-field values, the sentinel `none` acting as
positive infinity. -/
def omin : FFVal → FFVal → FFVal
  | none, b => b
  | some x, none => some x
  | some x, some y => some (min x y)

/-- Order on floor-field values: `none` is the top element. -/
def ole : FFVal → FFVal → Prop
  | _, none => True
  | none, some _ => False
  | some x, some y => x ≤ y

instance instDecidableOle (a b : FFVal) : Decidable (ole a b) := by
  cases a <;> cases b <;> simp only [ole] <;> infer_instance

/-- An exit as far as field combination is concerned: its individual floor
field (`struct exit`, field `floor_field`, in `src/headers/exit.h`). -/
structure ModelExit where
  floor_field : Loc → FFVal

/-- Cell-wise combination of the member exits' individual floor fields by
folding the binary minimum, mirroring how the final field of the `Exits_Set`
is accumulated exit by exit. -/
def combineFields (exits : List ModelExit) : Loc → FFVal :=
  fun c => exits.foldr (fun e acc => omin (e.floor_field c) acc) none

/-- Modelled from the spec: `calculate_final_floor_field` (declared in
`src/headers/exit.h`, body not in the repository snapshot).  It combines the
member exits' floor fields into the final field by cell-wise minimum and
reports `INACCESSIBLE_EXIT` when some walkable cell receives no finite
value, `SUCCESS` otherwise.  (The `FAILURE` case is allocation failure,
outside this model.) -/
def calculate_final_floor_field (walkable : List Loc) (exits : List ModelExit) :
    FFStatus × (Loc → FFVal) :=
  let final := combineFields exits
  if walkable.all (fun c => (final c).isSome) then
    (FFStatus.SUCCESS, final)
  else
    (FFStatus.INACCESSIBLE_EXIT, final)

theorem omin_none_right (a : FFVal) : omin a none = a := by
  cases a <;> rfl

theorem omin_choice (a b : FFVal) : omin a b = a ∨ omin a b = b := by
  cases a with
  | none => right; rfl
  | some x =>
      cases b with
      | none => left; rfl
      | some y =>
          rcases le_total x y with h | h
          · left; simp [omin, min_eq_left h]
          · right; simp [omin, min_eq_right h]

theorem ole_refl (a : FFVal) : ole a a := by
  cases a <;> simp [ole]

theorem ole_trans {a b c : FFVal} (h₁ : ole a b) (h₂ : ole b c) : ole a c := by
  cases a <;> cases b <;> cases c <;> simp_all [ole]
  exact le_trans h₁ h₂

theorem ole_omin_left (a b : FFVal) : ole (omin a b) a := by
  cases a <;> cases b <;> simp [omin, ole, ole_refl]

theorem ole_omin_right (a b : FFVal) : ole (omin a b) b := by
  cases a <;> cases b <;> simp [omin, ole, ole_refl]

theorem combineFields_le (exits : List ModelExit) (c : Loc) :
    ∀ e ∈ exits, ole (combineFields exits c) (e.floor_field c) := by
  induction exits with
  | nil => intro e he; cases he
  | cons e₀ t ih =>
      intro e he
      rcases List.mem_cons.mp he with h | h
      · subst h
        exact ole_omin_left _ _
      · exact ole_trans (ole_omin_right (e₀.floor_field c) _) (ih e h)

theorem combineFields_attained (exits : List ModelExit) (c : Loc) (h : exits ≠ []) :
    ∃ e ∈ exits, combineFields exits c = e.floor_field c := by
  induction exits with
  | nil => exact absurd rfl h
  | cons e₀ t ih =>
      by_cases ht : t = []
      · subst ht
        exact ⟨e₀, List.mem_cons_self _ _, by
          simp only [combineFields, List.foldr_cons, List.foldr_nil, omin_none_right]⟩
      · rcases omin_choice (e₀.floor_field c) (combineFields t c) with hL | hR
        · exact ⟨e₀, List.mem_cons_self _ _, hL⟩
        · rcases ih ht with ⟨e, he, heq⟩
          exact ⟨e, List.mem_cons_of_mem _ he, hR.trans heq⟩

theorem omin_eq_none_iff (a b : FFVal) : omin a b = none ↔ a = none ∧ b = none := by
  cases a <;> cases b <;> simp [omin]

theorem combineFields_none_iff (exits : List ModelExit) (c : Loc) :
    combineFields exits c = none ↔ ∀ e ∈ exits, e.floor_field c = none := by
  induction exits with
  | nil => simp [combineFields]
  | cons e₀ t ih =>
      simp only [combineFields, List.foldr_cons] at *
      rw [omin_eq_none_iff, ih]
      simp

/-- Claim C4: after `calculate_final_floor_field` completes successfully, the
final floor field equals at every cell the cell-wise minimum over all member
exits' individual floor fields (it is a lower bound and is attained by some
member exit), a cell has no value exactly when no exit's field gives it a
finite value, and on success every walkable cell has a finite value. -/
theorem C4_final_field_is_cellwise_min (walkable : List Loc) (exits : List ModelExit)
    (c : Loc) (h : (calculate_final_floor_field walkable exits).1 = FFStatus.SUCCESS) :
    (∀ e ∈ exits, ole ((calculate_final_floor_field walkable exits).2 c) (e.floor_field c)) ∧
    (exits ≠ [] → ∃ e ∈ exits,
      (calculate_final_floor_field walkable exits).2 c = e.floor_field c) ∧
    ((calculate_final_floor_field walkable exits).2 c = none ↔
      ∀ e ∈ exits, e.floor_field c = none) ∧
    (∀ d ∈ walkable, (((calculate_final_floor_field walkable exits).2) d).isSome = true) := by
  have hsnd : (calculate_final_floor_field walkable exits).2 = combineFields exits := by
    unfold calculate_final_floor_field
    by_cases hc : walkable.all (fun c => (combineFields exits c).isSome) <;> simp [hc]
  refine ⟨?_, ?_, ?_, ?_⟩
  · rw [hsnd]; exact combineFields_le exits c
  · rw [hsnd]; exact combineFields_attained exits c
  · rw [hsnd]; exact combineFields_none_iff exits c
  · intro d hd
    rw [hsnd]
    unfold calculate_final_floor_field at h
    by_cases hc : walkable.all (fun c => (combineFields exits c).isSome)
    · exact List.all_eq_true.mp hc d hd
    · simp [hc] at h

/-- Witness for C4 at a concrete two-exit configuration. -/
theorem C4_witness :
    (calculate_final_floor_field [((0 : Nat), (0 : Nat)), (0, 1)]
      [⟨fun c => if c = (0, 0) then some 0 else some 2⟩,
       ⟨fun c => if c = (0, 1) then some 0 else some 3⟩]).1 = FFStatus.SUCCESS ∧
    ((calculate_final_floor_field [((0 : Nat), (0 : Nat)), (0, 1)]
      [⟨fun c => if c = (0, 0) then some 0 else some 2⟩,
       ⟨fun c => if c = (0, 1) then some 0 else some 3⟩]).2 (0, 1) = none ↔
      ∀ e ∈ [ModelExit.mk fun c => if c = (0, 0) then some 0 else some 2,
             ModelExit.mk fun c => if c = (0, 1) then some 0 else some 3],
        e.floor_field (0, 1) = none) := by
  refine ⟨by decide, ?_⟩
  exact (C4_final_field_is_cellwise_min _ _ (0, 1) (by decide)).2.2.1

/-! ### Conflict identification and resolution

Modelled from the spec: `identify_pedestrian_conflicts` and
`solve_pedestrian_conflicts` (declared in the pedestrian header, bodies not in
the repository snapshot).  Pedestrians are indexed by `Fin n`; `pos` gives the
current position, `prop` the proposed target of the timestep, and `draw` the
pseudo-random number consumed for a contested cell. -/

/-- Movement-outcome flag of a pedestrian's transient per-timestep state. -/
inductive MoveState
  | moved
  | blocked
  | stayed
deriving DecidableEq, Repr

/-- Modelled from the spec: the contenders of a cell, i.e. the pedestrians
whose proposed target is that cell, in canonical index order
(`identify_pedestrian_conflicts` groups pedestrians by proposed target; a
cell with at least two contenders is a Cell Conflict). -/
def contenders (n : Nat) (prop : Fin n → Loc) (c : Loc) : List (Fin n) :=
  (List.finRange n).filter (fun i => decide (prop i = c))

/-- Modelled from the spec: the winner of a contested cell, selected by a
random draw over the contender list. -/
def winnerOf (n : Nat) (prop : Fin n → Loc) (draw : Loc → Nat) (c : Loc) :
    Option (Fin n) :=
  (contenders n prop c).get? (draw c % (contenders n prop c).length)

/-- Modelled from the spec: the accepted move of pedestrian `i` after
`solve_pedestrian_conflicts`.  In a Cell Conflict (two or more contenders)
the selected winner keeps its proposed target and every loser reverts to its
own cell; an uncontested proposal is granted as-is. -/
def accepted (n : Nat) (pos prop : Fin n → Loc) (draw : Loc → Nat) (i : Fin n) : Loc :=
  if 2 ≤ (contenders n prop (prop i)).length then
    if winnerOf n prop draw (prop i) = some i then prop i else pos i
  else prop i

/-- Modelled from the spec: the movement-outcome flag after conflict
resolution — a conflict loser is marked blocked (not discarded), everyone
else is moved or stayed according to its accepted move. -/
def moveStateOf (n : Nat) (pos prop : Fin n → Loc) (draw : Loc → Nat) (i : Fin n) :
    MoveState :=
  if 2 ≤ (contenders n prop (prop i)).length ∧ winnerOf n prop draw (prop i) ≠ some i then
    MoveState.blocked
  else if prop i = pos i then MoveState.stayed
  else MoveState.moved

theorem mem_contenders_iff {n : Nat} {prop : Fin n → Loc} {c : Loc} {i : Fin n} :
    i ∈ contenders n prop c ↔ prop i = c := by
  simp [contenders, List.mem_filter, List.mem_finRange]

theorem contenders_self {n : Nat} (prop : Fin n → Loc) (i : Fin n) :
    i ∈ contenders n prop (prop i) :=
  mem_contenders_iff.mpr rfl

theorem two_le_length_of_mem_ne {α : Type} {l : List α} {a b : α}
    (ha : a ∈ l) (hb : b ∈ l) (hab : a ≠ b) : 2 ≤ l.length := by
  match l with
  | [] => cases ha
  | [x] =>
      rw [List.mem_singleton] at ha hb
      exact absurd (ha.trans hb.symm) hab
  | x :: y :: t => simp [Nat.succ_le_succ, Nat.le_add_left]

theorem winnerOf_isSome {n : Nat} (prop : Fin n → Loc) (draw : Loc → Nat) (c : Loc)
    (h : 2 ≤ (contenders n prop c).length) :
    ∃ w, winnerOf n prop draw c = some w ∧ w ∈ contenders n prop c := by
  have hlt : draw c % (contenders n prop c).length < (contenders n prop c).length :=
    Nat.mod_lt _ (by omega)
  refine ⟨(contenders n prop c).get ⟨_, hlt⟩, ?_, List.get_mem _ _ hlt⟩
  simp [winnerOf, List.get?_eq_get hlt]

/-- If a pedestrian's proposal is its own cell, its accepted move is its own
cell, whatever the conflict outcome. -/
theorem accepted_of_prop_self {n : Nat} {pos prop : Fin n → Loc} {draw : Loc → Nat}
    {i : Fin n} (h : prop i = pos i) : accepted n pos prop draw i = pos i := by
  unfold accepted
  by_cases hc : 2 ≤ (contenders n prop (prop i)).length
  · by_cases hw : winnerOf n prop draw (prop i) = some i <;> simp [hc, hw, h]
  · simp [hc, h]

theorem accepted_eq_prop_or_pos {n : Nat} (pos prop : Fin n → Loc) (draw : Loc → Nat)
    (i : Fin n) : accepted n pos prop draw i = prop i ∨ accepted n pos prop draw i = pos i := by
  unfold accepted
  by_cases hc : 2 ≤ (contenders n prop (prop i)).length
  · by_cases hw : winnerOf n prop draw (prop i) = some i
    · left; simp [hc, hw]
    · right; simp [hc, hw]
  · left; simp [hc]

/-- A pedestrian in a Cell Conflict whose accepted move is its (distinct)
proposed target must be the selected winner. -/
theorem accepted_move_is_winner {n : Nat} {pos prop : Fin n → Loc} {draw : Loc → Nat}
    {i : Fin n} (hmov : prop i ≠ pos i)
    (hconf : 2 ≤ (contenders n prop (prop i)).length)
    (hacc : accepted n pos prop draw i = prop i) :
    winnerOf n prop draw (prop i) = some i := by
  unfold accepted at hacc
  rw [if_pos hconf] at hacc
  by_contra hw
  rw [if_neg hw] at hacc
  exact hmov hacc.symm

/-- Claim C3: in every Cell Conflict (a cell with two or more contenders),
exactly one contender is selected as winner, the winner's proposed target
becomes its accepted move, and every other contender's accepted move reverts
to its own cell with its transient state marked blocked; the winner is the
unique contender not marked blocked. -/
theorem C3_conflict_resolution (n : Nat) (pos prop : Fin n → Loc) (draw : Loc → Nat)
    (c : Loc) (h : 2 ≤ (contenders n prop c).length) :
    ∃ w, winnerOf n prop draw c = some w ∧ w ∈ contenders n prop c ∧
      accepted n pos prop draw w = c ∧
      (∀ i ∈ contenders n prop c, i ≠ w →
        accepted n pos prop draw i = pos i ∧
        moveStateOf n pos prop draw i = MoveState.blocked) ∧
      (∀ i ∈ contenders n prop c, moveStateOf n pos prop draw i ≠ MoveState.blocked →
        i = w) := by
  obtain ⟨w, hw, hwm⟩ := winnerOf_isSome prop draw c h
  have hpw : prop w = c := mem_contenders_iff.mp hwm
  refine ⟨w, hw, hwm, ?_, ?_, ?_⟩
  · unfold accepted
    rw [hpw, if_pos h, if_pos hw]
  · intro i hi hne
    have hpi : prop i = c := mem_contenders_iff.mp hi
    have hwi : winnerOf n prop draw (prop i) ≠ some i := by
      rw [hpi, hw]
      intro hx
      exact hne (Option.some_injective _ hx).symm
    constructor
    · unfold accepted
      rw [hpi, if_pos h, if_neg (by rw [← hpi] at hw ⊢; exact hwi)]
    · unfold moveStateOf
      rw [if_pos ⟨by rw [hpi]; exact h, hwi⟩]
  · intro i hi hnb
    have hpi : prop i = c := mem_contenders_iff.mp hi
    unfold moveStateOf at hnb
    rw [hpi] at hnb
    by_contra hne
    exact hnb (by
      rw [if_pos ⟨h, by rw [hw]; intro hx; exact hne (Option.some_injective _ hx).symm⟩])

/-- Witness for C3: two pedestrians contending for cell (1,1). -/
theorem C3_witness :
    (2 ≤ (contenders 2 (fun _ => ((1 : Nat), (1 : Nat))) ((1 : Nat), (1 : Nat))).length) ∧
    ∃ w, winnerOf 2 (fun _ => ((1 : Nat), (1 : Nat))) (fun _ => 0) (1, 1) = some w ∧
      w ∈ contenders 2 (fun _ => ((1 : Nat), (1 : Nat))) (1, 1) ∧
      accepted 2 (fun i => ((0 : Nat), (i : Nat))) (fun _ => ((1 : Nat), (1 : Nat)))
        (fun _ => 0) w = (1, 1) ∧
      (∀ i ∈ contenders 2 (fun _ => ((1 : Nat), (1 : Nat))) (1, 1), i ≠ w →
        accepted 2 (fun i => ((0 : Nat), (i : Nat))) (fun _ => ((1 : Nat), (1 : Nat)))
          (fun _ => 0) i = (0, (i : Nat)) ∧
        moveStateOf 2 (fun i => ((0 : Nat), (i : Nat))) (fun _ => ((1 : Nat), (1 : Nat)))
          (fun _ => 0) i = MoveState.blocked) ∧
      (∀ i ∈ contenders 2 (fun _ => ((1 : Nat), (1 : Nat))) (1, 1),
        moveStateOf 2 (fun i => ((0 : Nat), (i : Nat))) (fun _ => ((1 : Nat), (1 : Nat)))
          (fun _ => 0) i ≠ MoveState.blocked → i = w) :=
  ⟨by decide,
   C3_conflict_resolution 2 (fun i => ((0 : Nat), (i : Nat)))
     (fun _ => ((1 : Nat), (1 : Nat))) (fun _ => 0) (1, 1) (by decide)⟩

/-- Claim C2: after the apply-movement phase no two pedestrians occupy the
same cell.  If positions are pairwise distinct before the timestep and every
proposal lands on a cell that is unoccupied except possibly by the proposer
itself (the spec's candidate rule: a pedestrian proposes its own cell or a
walkable unoccupied neighbour), then the accepted moves produced by conflict
resolution are pairwise distinct, so the occupancy invariant is preserved by
applying them. -/
theorem C2_occupancy_invariant (n : Nat) (pos prop : Fin n → Loc) (draw : Loc → Nat)
    (hinj : Function.Injective pos)
    (hfree : ∀ i j, prop i = pos j → i = j) :
    Function.Injective (accepted n pos prop draw) := by
  intro i j h
  rcases accepted_eq_prop_or_pos pos prop draw i with hi | hi <;>
    rcases accepted_eq_prop_or_pos pos prop draw j with hj | hj
  · -- both accepted their proposals
    by_cases hsi : prop i = pos i
    · -- i stayed: j's proposal hits i's occupied cell
      rw [accepted_of_prop_self hsi] at h
      rw [hj] at h
      exact (hfree j i h.symm).symm
    · by_cases hsj : prop j = pos j
      · rw [accepted_of_prop_self hsj] at h
        rw [hi] at h
        exact hfree i j h
      · -- both are genuine movers granted their targets
        rw [hi] at h
        rw [hj] at h
        by_cases hij : i = j
        · exact hij
        · have hconf : 2 ≤ (contenders n prop (prop i)).length := by
            refine two_le_length_of_mem_ne (contenders_self prop i) ?_ hij
            rw [h]
            exact contenders_self prop j
          have hwi := accepted_move_is_winner hsi hconf hi
          have hwj := accepted_move_is_winner hsj (by rw [← h]; exact hconf) hj
          rw [h] at hwi
          rw [hwj] at hwi
          exact (Option.some_injective _ hwi).symm
  · -- i granted its proposal, j reverted to its own cell
    rw [hi, hj] at h
    exact hfree i j h
  · rw [hi, hj] at h
    exact (hfree j i h.symm).symm
  · rw [hi, hj] at h
    exact hinj h

/-- Witness for C2: two pedestrians contending for the free cell (0,1);
their accepted moves are still pairwise distinct. -/
theorem C2_witness :
    (Function.Injective (fun i : Fin 2 => ((0 : Nat), 2 * (i : Nat))) ∧
      ∀ i j : Fin 2, (fun _ : Fin 2 => ((0 : Nat), (1 : Nat))) i =
        (fun i : Fin 2 => ((0 : Nat), 2 * (i : Nat))) j → i = j) ∧
    Function.Injective (accepted 2 (fun i => ((0 : Nat), 2 * (i : Nat)))
      (fun _ => ((0 : Nat), (1 : Nat))) (fun _ => 0)) :=
  ⟨⟨by decide, by decide⟩,
   C2_occupancy_invariant 2 (fun i => ((0 : Nat), 2 * (i : Nat)))
     (fun _ => ((0 : Nat), (1 : Nat))) (fun _ => 0) (by decide) (by decide)⟩

/-! ### The per-timestep simulation model

The driver's inner loop (`run_simulations`, main.c lines 159-189) calls the
phase functions in a fixed straight-line order.  The phase bodies live in
translation units outside the repository snapshot and are modelled from the
spec; the order in which they are invoked, and the trace of phases each
timestep produces, embed the driver. -/

/-- A live pedestrian: persistent position and panic state plus the
transient per-timestep fields (proposed target and movement-outcome flag). -/
structure SimPed where
  pos : Loc
  panic : Bool
  target : Loc
  state : MoveState
deriving DecidableEq, Repr

/-- The configuration a simulation run works under. -/
structure SimConfig where
  final_floor_field : Loc → FFVal
  walkable : Loc → Bool
  is_exit : Loc → Bool
  panic_probability : Nat
  allow_X_movement : Bool

/-- Simulation state: the live pedestrians and the pseudo-random stream
state. -/
structure SimState where
  peds : List SimPed
  rng : Nat
deriving DecidableEq, Repr

/-- Modelled from the spec: the single pseudo-random stream (`rand` of the C
library, seeded by `srand`), as a linear congruential step. -/
def rand_next (s : Nat) : Nat × Nat :=
  let s2 := (1103515245 * s + 12345) % 2147483648
  (s2 / 65536, s2)

/-- The phases a timestep of `run_simulations` executes. -/
inductive Phase
  | evaluatePhase
  | panicPhase
  | blockXPhase
  | conflictPhase
  | applyPhase
  | updateGridsPhase
  | resetStatePhase
  | resetPanicPhase
deriving DecidableEq, Repr

/-- The eight neighbour offsets of a cell (8-connectivity). -/
def neighborOffsets : List (Int × Int) :=
  [(-1, -1), (-1, 0), (-1, 1), (0, -1), (0, 1), (1, -1), (1, 0), (1, 1)]

def shiftLoc (c : Loc) (d : Int × Int) : Option Loc :=
  let r := (c.1 : Int) + d.1
  let q := (c.2 : Int) + d.2
  if 0 ≤ r ∧ 0 ≤ q then some (r.toNat, q.toNat) else none

def neighbors (c : Loc) : List Loc :=
  neighborOffsets.filterMap (shiftLoc c)

/-- Modelled from the spec: the candidate cells of a pedestrian — its own
cell (stay) plus its walkable, unoccupied neighbours. -/
def candidate_cells (cfg : SimConfig) (peds : List SimPed) (p : SimPed) : List Loc :=
  p.pos :: (neighbors p.pos).filter
    (fun c => cfg.walkable c && !(peds.any (fun q => q.pos = c)))

/-- Modelled from the spec: the proposed target — a minimum-floor-field
candidate, ties broken by a draw from the pseudo-random stream. -/
def choose_target (cfg : SimConfig) (peds : List SimPed) (p : SimPed) (r : Nat) : Loc :=
  let cands := candidate_cells cfg peds p
  let best := cands.foldr (fun c acc => omin (cfg.final_floor_field c) acc) none
  let tied := cands.filter (fun c => cfg.final_floor_field c = best)
  match tied.get? (r % tied.length) with
  | some c => c
  | none => p.pos

/-- Modelled from the spec: `evaluate_pedestrians_movements` proposes a
target for every pedestrian, consuming the stream in pedestrian order. -/
def evaluate_pedestrians_movements (cfg : SimConfig) (st : SimState) :
    SimState × List Phase :=
  let r := st.peds.foldl
    (fun (acc : List SimPed × Nat) p =>
      let v := rand_next acc.2
      (acc.1 ++ [{ p with target := choose_target cfg st.peds p v.1 }], v.2))
    ([], st.rng)
  ({ peds := r.1, rng := r.2 }, [Phase.evaluatePhase])

/-- Modelled from the spec: `determine_pedestrians_in_panic` draws once per
pedestrian and sets the persistent panic flag. -/
def determine_pedestrians_in_panic (cfg : SimConfig) (st : SimState) :
    SimState × List Phase :=
  let r := st.peds.foldl
    (fun (acc : List SimPed × Nat) p =>
      let v := rand_next acc.2
      (acc.1 ++ [{ p with panic := decide (v.1 % 100 < cfg.panic_probability) }], v.2))
    ([], st.rng)
  ({ peds := r.1, rng := r.2 }, [Phase.panicPhase])

/-- Modelled from the spec: `block_X_movement` removes purely-sideways
moves — a pedestrian whose proposed target is lateral-only reverts to its
own cell. -/
def block_X_movement (st : SimState) : SimState × List Phase :=
  let f := fun (p : SimPed) =>
    if p.target.1 = p.pos.1 ∧ p.target.2 ≠ p.pos.2 then { p with target := p.pos } else p
  ({ st with peds := st.peds.map f }, [Phase.blockXPhase])

/-- The cells contended by at least two pedestrians (the Cell Conflicts of
the timestep). -/
def conflict_cells (peds : List SimPed) : List Loc :=
  (peds.map (fun p => p.target)).dedup.filter
    (fun c => 2 ≤ (peds.filter (fun p => p.target = c)).length)

/-- One draw from the stream per contested cell, in a fixed canonical
order. -/
def draw_for_cells (cells : List Loc) (rng : Nat) : (Loc → Nat) × Nat :=
  let r := cells.foldl
    (fun (acc : List (Loc × Nat) × Nat) c =>
      let v := rand_next acc.2
      (acc.1 ++ [(c, v.1)], v.2))
    ([], rng)
  (fun c => ((r.1.lookup c).getD 0), r.2)

/-- Modelled from the spec: `solve_pedestrian_conflicts` — in every Cell
Conflict the drawn winner keeps its proposed target and is marked moved,
every loser reverts to its own cell and is marked blocked; uncontested
proposals are granted. -/
def solve_pedestrian_conflicts (peds : List SimPed) (draw : Loc → Nat) : List SimPed :=
  peds.enum.map (fun ip =>
    let i := ip.1
    let p := ip.2
    let idxs := (List.range peds.length).filter
      (fun j => (peds.get? j).map (fun q => q.target) = some p.target)
    if 2 ≤ idxs.length then
      if idxs.get? (draw p.target % idxs.length) = some i then
        { p with state := MoveState.moved }
      else
        { p with target := p.pos, state := MoveState.blocked }
    else
      { p with state := if p.target = p.pos then MoveState.stayed else MoveState.moved })

/-- The driver's `conflict_solving` (main.c lines 207-224): identify the
Cell Conflicts, then solve them, consuming the stream once per conflict. -/
def conflict_solving (st : SimState) : SimState × List Phase :=
  let d := draw_for_cells (conflict_cells st.peds) st.rng
  ({ peds := solve_pedestrian_conflicts st.peds d.1, rng := d.2 }, [Phase.conflictPhase])

/-- Modelled from the spec: `apply_pedestrian_movement` moves every
pedestrian to its accepted target; a pedestrian reaching an exit cell is
removed from the environment. -/
def apply_pedestrian_movement (cfg : SimConfig) (st : SimState) :
    SimState × List Phase :=
  let moved := st.peds.map (fun p => { p with pos := p.target })
  ({ st with peds := moved.filter (fun p => !cfg.is_exit p.pos) }, [Phase.applyPhase])

/-- `update_pedestrian_position_grid`: refreshes the occupancy and heatmap
grids; it does not change the pedestrian registry. -/
def update_pedestrian_position_grid (st : SimState) : SimState × List Phase :=
  (st, [Phase.updateGridsPhase])

/-- Modelled from the spec: `reset_pedestrian_state` clears the transient
per-timestep fields of every pedestrian. -/
def reset_pedestrian_state (st : SimState) : SimState × List Phase :=
  let f := fun (p : SimPed) => { p with target := p.pos, state := MoveState.stayed }
  ({ st with peds := st.peds.map f }, [Phase.resetStatePhase])

/-- Modelled from the spec: `reset_pedestrian_panic` clears the panic flag
of every pedestrian (the explicit panic reset, invoked by the driver). -/
def reset_pedestrian_panic (st : SimState) : SimState × List Phase :=
  ({ st with peds := st.peds.map (fun p => { p with panic := false }) },
   [Phase.resetPanicPhase])

/-- The result of one timestep: the new state, the trace of executed phases,
and the accepted moves (the targets right after conflict resolution). -/
structure TimestepResult where
  state : SimState
  phases : List Phase
  accepted_moves : List Loc
deriving DecidableEq, Repr

/-- One timestep of the simulation loop, embedding main.c lines 164-177:
the phase calls in driver order, the lateral block only when
`allow_X_movement` is false. -/
def timestep (cfg : SimConfig) (st : SimState) : TimestepResult :=
  let a := evaluate_pedestrians_movements cfg st
  let b := determine_pedestrians_in_panic cfg a.1
  let c := if cfg.allow_X_movement then (b.1, ([] : List Phase)) else block_X_movement b.1
  let d := conflict_solving c.1
  let e := apply_pedestrian_movement cfg d.1
  let f := update_pedestrian_position_grid e.1
  let g := reset_pedestrian_state f.1
  let h := reset_pedestrian_panic g.1
  { state := h.1
    phases := a.2 ++ b.2 ++ c.2 ++ d.2 ++ e.2 ++ f.2 ++ g.2 ++ h.2
    accepted_moves := d.1.peds.map (fun p => p.target) }

/-- The state right after the panic-determination phase of a timestep
(before the end-of-timestep resets). -/
def after_panic_determination (cfg : SimConfig) (st : SimState) : SimState :=
  (determine_pedestrians_in_panic cfg (evaluate_pedestrians_movements cfg st).1).1

/-- The simulation loop of one run (main.c lines 159-189): timesteps until
the environment is empty, with fuel standing in for the unbounded C loop;
returns the accepted-move lists and the timestep count. -/
def simulation_loop (cfg : SimConfig) : Nat → SimState → List (List Loc) × Nat
  | 0, _ => ([], 0)
  | fuel + 1, st =>
      if st.peds = [] then ([], 0)
      else
        let r := timestep cfg st
        let rest := simulation_loop cfg fuel r.state
        (r.accepted_moves :: rest.1, rest.2 + 1)

/-- One simulation run: `srand(seed)` seeds the stream (main.c line 144),
then the simulation loop runs. -/
def run_one_simulation (cfg : SimConfig) (initialPeds : List SimPed)
    (seed : Nat) (fuel : Nat) : List (List Loc) × Nat :=
  simulation_loop cfg fuel { peds := initialPeds, rng := seed }

/-- Claim C5: every timestep executes the phases in the fixed driver order
with no phase skipped — evaluate movements, determine panic, block lateral
movement exactly when the blocking option is active (`allow_X_movement`
false), conflict solving, apply movement, update the occupancy and heatmap
grids, reset the per-timestep transient state (followed by the panic
reset the driver also performs). -/
theorem C5_phase_order (cfg : SimConfig) (st : SimState) :
    (timestep cfg st).phases =
      [Phase.evaluatePhase, Phase.panicPhase] ++
      (if cfg.allow_X_movement then [] else [Phase.blockXPhase]) ++
      [Phase.conflictPhase, Phase.applyPhase, Phase.updateGridsPhase,
       Phase.resetStatePhase, Phase.resetPanicPhase] := by
  by_cases h : cfg.allow_X_movement <;>
    simp [timestep, h, evaluate_pedestrians_movements, determine_pedestrians_in_panic,
      block_X_movement, conflict_solving, apply_pedestrian_movement,
      update_pedestrian_position_grid, reset_pedestrian_state, reset_pedestrian_panic]

/-- Claim C6 (amended): the driver calls `reset_pedestrian_panic` at the end
of every timestep, so after every timestep every pedestrian's panic flag is
false — panic set during a timestep never survives into the next one. -/
theorem C6_panic_cleared_every_timestep (cfg : SimConfig) (st : SimState) :
    ((timestep cfg st).state.peds.all fun p => !p.panic) = true := by
  simp only [timestep, reset_pedestrian_panic, List.all_eq_true, List.mem_map]
  rintro b ⟨p, _, rfl⟩
  rfl

/-- A concrete sample configuration: a 5-by-5 open room with a uniform
floor field, an exit at the origin cell, and certain panic
(probability 100). -/
def sampleConfig : SimConfig where
  final_floor_field := fun _ => some 0
  walkable := fun c => decide (c.1 ≤ 4 ∧ c.2 ≤ 4)
  is_exit := fun c => decide (c = ((0 : Nat), (0 : Nat)))
  panic_probability := 100
  allow_X_movement := true

/-- A concrete sample initial pedestrian, far from the exit. -/
def samplePed : SimPed where
  pos := (3, 3)
  panic := false
  target := (3, 3)
  state := MoveState.stayed

/-- Counterexample to claim C6 as stated: in a concrete timestep the
pedestrian enters the panic state (it is in panic right after the
panic-determination phase), yet at the start of the next timestep — the
pedestrian still being in the environment — its panic flag is false: panic
does not survive into the subsequent timestep, because the driver resets it
every timestep exactly like the transient fields. -/
theorem C6_counterexample :
    ((after_panic_determination sampleConfig { peds := [samplePed], rng := 7 }).peds.any
      fun p => p.panic) = true ∧
    ((timestep sampleConfig { peds := [samplePed], rng := 7 }).state.peds.all
      fun p => !p.panic) = true ∧
    (timestep sampleConfig { peds := [samplePed], rng := 7 }).state.peds ≠ [] := by
  refine ⟨by decide, by decide, by decide⟩

/-- Claim C8: two executions of the same simulation set whose pseudo-random
streams are seeded with the identical seed produce the identical sequence of
accepted moves and the identical timestep count.  In this embedding every
phase is a deterministic function of the state and the single stream seeded
by `srand`, so the run result is a function of the configuration and the
seed. -/
theorem C8_seed_determinism (cfg : SimConfig) (initialPeds : List SimPed)
    (fuel : Nat) (seed1 seed2 : Nat) (h : seed1 = seed2) :
    run_one_simulation cfg initialPeds seed1 fuel =
      run_one_simulation cfg initialPeds seed2 fuel := by
  subst h
  rfl

/-- Witness for C8 at a concrete configuration and seed. -/
theorem C8_witness :
    (5 : Nat) = 5 ∧
    run_one_simulation sampleConfig [samplePed] 5 4 =
      run_one_simulation sampleConfig [samplePed] 5 4 :=
  ⟨rfl, C8_seed_determinism sampleConfig [samplePed] 4 5 5 rfl⟩

/-! ### The driver: `main`'s simulation-set loop and `run_simulations`

Embedded from `src/src/main.c` as an event-trace model: the loop control
flow is translated statement by statement; the excluded collaborators
(floor-field computation, the inner timestep loop, printing) are abstracted
as per-set statuses, per-run outcomes and observable events. -/

/-- The output formats the driver branches on (`cli_args.output_format`). -/
inductive OutputFormat
  | OUTPUT_VISUALIZATION
  | OUTPUT_TIMESTEPS_COUNT
  | OUTPUT_HEATMAP
deriving DecidableEq, Repr

/-- The command-line state the driver consults; the three origin predicates
of the source (`origin_uses_auxiliary_data`, `origin_uses_static_exits`,
`origin_uses_static_pedestrians`) are carried as fields. -/
structure CliArgs where
  uses_auxiliary_data : Bool
  static_exits : Bool
  static_pedestrians : Bool
  output_format : OutputFormat
  num_simulations : Nat
deriving DecidableEq, Repr

/-- The outcome of one simulation run, abstracting the inner timestep loop:
it completes in some number of timesteps, or conflict solving reports
resource exhaustion (CONFLICT_SET_OVERFLOW) and `conflict_solving` returns
FAILURE. -/
inductive RunOutcome
  | ok (timesteps : Nat)
  | conflictOverflow
deriving DecidableEq, Repr

/-- The observable actions of the driver. -/
inductive Event
  | calcFF (s : FFStatus)
  | printInaccessible
  | deallocExits
  | runSimsCalled
  | srandCall (seed : Int)
  | insertPeds
  | runDone (timesteps : Nat)
  | resetPeds
  | deallocPeds
  | heatmapPrint
  | heatmapReset
  | printStatus (idx : Nat)
deriving DecidableEq, Repr

/-- The run loop of `run_simulations` (main.c lines 142-198): run `count`
more runs, the next one having index `i` and seeding the stream with the
current `cli_args.seed`; the seed is incremented at the end of each
completed run.  Returns the events and, on success, the final seed; a
FAILURE return (conflict overflow) yields `none`. -/
def runSimsAux (outcome : Nat → RunOutcome) (staticPeds : Bool) :
    Nat → Int → Nat → List Event × Option Int
  | _, seed, 0 => ([], some seed)
  | i, seed, count + 1 =>
      let pre := Event.srandCall seed ::
        (if staticPeds then [] else [Event.insertPeds])
      match outcome i with
      | RunOutcome.conflictOverflow => (pre, none)
      | RunOutcome.ok t =>
          let post := Event.runDone t ::
            (if staticPeds then [Event.resetPeds] else [Event.deallocPeds])
          let r := runSimsAux outcome staticPeds (i + 1) (seed + 1) count
          (pre ++ post ++ r.1, r.2)

/-- `run_simulations` (main.c lines 135-201) for one simulation set. -/
def run_simulations (cli : CliArgs) (seed : Int) (outcome : Nat → RunOutcome) :
    List Event × Option Int :=
  runSimsAux outcome cli.static_pedestrians 0 seed cli.num_simulations

/-- One simulation set as the driver sees it: the status its floor-field
combination yields, and the outcome of each of its runs. -/
structure SetSpec where
  ffStatus : FFStatus
  runOutcome : Nat → RunOutcome

/-- The result of one iteration of `main`'s do-while body: continue with new
seed, set index and remaining sets; return END_PROGRAM on a fatal error; or
break out of the loop. -/
inductive StepRes
  | cont (seed : Int) (idx : Nat) (rest : List SetSpec) (evs : List Event)
  | halted (evs : List Event)
  | finished (evs : List Event)

/-- The body of `main`'s loop for the current set (main.c lines 77-120):
`calculate_final_floor_field`, the INACCESSIBLE_EXIT branch (print, dealloc
only for auxiliary-data origins, `continue`), the run of the simulations,
the dealloc/heatmap/status epilogue, and the static-exit `break`. -/
def setBody (cli : CliArgs) (s : SetSpec) (rest : List SetSpec) (seed : Int)
    (idx : Nat) : StepRes :=
  match s.ffStatus with
  | FFStatus.FAILURE => StepRes.halted [Event.calcFF FFStatus.FAILURE]
  | FFStatus.INACCESSIBLE_EXIT =>
      StepRes.cont seed (idx + 1) rest
        ([Event.calcFF FFStatus.INACCESSIBLE_EXIT, Event.printInaccessible] ++
         (if cli.uses_auxiliary_data then [Event.deallocExits] else []) ++
         [Event.printStatus idx])
  | FFStatus.SUCCESS =>
      let r := run_simulations cli seed s.runOutcome
      match r.2 with
      | none =>
          StepRes.halted ([Event.calcFF FFStatus.SUCCESS, Event.runSimsCalled] ++ r.1)
      | some seed2 =>
          let evs := [Event.calcFF FFStatus.SUCCESS, Event.runSimsCalled] ++ r.1 ++
            (if cli.uses_auxiliary_data then [Event.deallocExits] else []) ++
            (if cli.output_format = OutputFormat.OUTPUT_HEATMAP then
              [Event.heatmapPrint, Event.heatmapReset] else []) ++
            [Event.printStatus idx]
          if cli.static_exits then StepRes.finished evs
          else StepRes.cont seed2 (idx + 1) rest evs

/-- One iteration of `main`'s do-while loop (main.c lines 66-122): for
auxiliary-data origins the next set is fetched (loop over when none is
left); otherwise the set fixed by the environment is processed again. -/
def mainStep (cli : CliArgs) (staticSet : SetSpec) (sets : List SetSpec)
    (seed : Int) (idx : Nat) : StepRes :=
  if cli.uses_auxiliary_data then
    match sets with
    | [] => StepRes.finished []
    | s :: rest => setBody cli s rest seed idx
  else
    setBody cli staticSet sets seed idx

/-- The result of running `main`'s loop with bounded fuel. -/
inductive LoopResult
  | finished (evs : List Event)
  | halted (evs : List Event)
  | outOfFuel (evs : List Event)
deriving DecidableEq, Repr

/-- `main`'s do-while loop, iterated with fuel (the C loop is unbounded). -/
def mainRun (cli : CliArgs) (staticSet : SetSpec) :
    Nat → List SetSpec → Int → Nat → LoopResult
  | 0, _, _, _ => LoopResult.outOfFuel []
  | fuel + 1, sets, seed, idx =>
      match mainStep cli staticSet sets seed idx with
      | StepRes.halted e => LoopResult.halted e
      | StepRes.finished e => LoopResult.finished e
      | StepRes.cont seed2 idx2 rest e =>
          match mainRun cli staticSet fuel rest seed2 idx2 with
          | LoopResult.finished e2 => LoopResult.finished (e ++ e2)
          | LoopResult.halted e2 => LoopResult.halted (e ++ e2)
          | LoopResult.outOfFuel e2 => LoopResult.outOfFuel (e ++ e2)

/-- The events a loop result carries. -/
def eventsOf : LoopResult → List Event
  | LoopResult.finished e => e
  | LoopResult.halted e => e
  | LoopResult.outOfFuel e => e

/-- The seeds passed to `srand`, in order, within an event trace. -/
def srandSeeds : List Event → List Int
  | [] => []
  | Event.srandCall s :: t => s :: srandSeeds t
  | _ :: t => srandSeeds t

theorem srandSeeds_append (a b : List Event) :
    srandSeeds (a ++ b) = srandSeeds a ++ srandSeeds b := by
  induction a with
  | nil => rfl
  | cons e t ih => cases e <;> simp [srandSeeds, ih]

/-- Within one call of `run_simulations` in which no run fails, the i-th run
seeds the stream with the entry seed plus i, and the final seed is the entry
seed plus the number of runs. -/
theorem seed_shift_map (s : Int) (n : Nat) :
    s :: (List.range n).map (fun k : Nat => s + 1 + (k : Int)) =
    (List.range (n + 1)).map (fun k : Nat => s + (k : Int)) := by
  rw [List.range_succ_eq_map, List.map_cons, List.map_map]
  simp only [Nat.cast_zero, add_zero]
  congr 1
  apply List.map_congr_left
  intro a _
  simp only [Function.comp_apply]
  push_cast
  ring

theorem runSimsAux_all_ok (outcome : Nat → RunOutcome) (sp : Bool) :
    ∀ count i seed,
      (∀ k, k < count → outcome (i + k) ≠ RunOutcome.conflictOverflow) →
      (runSimsAux outcome sp i seed count).2 = some (seed + count) ∧
      srandSeeds (runSimsAux outcome sp i seed count).1 =
        (List.range count).map (fun k : Nat => seed + (k : Int)) := by
  intro count
  induction count with
  | zero => intro i seed _; simp [runSimsAux, srandSeeds]
  | succ n ih =>
      intro i seed h
      rcases ho : outcome i with t | _
      · have hrec := ih (i + 1) (seed + 1) (by
          intro k hk
          have := h (k + 1) (by omega)
          rwa [show i + (k + 1) = i + 1 + k by omega] at this)
        constructor
        · simp only [runSimsAux, ho]
          rw [hrec.1]
          congr 1
          push_cast
          ring
        · simp only [runSimsAux, ho, srandSeeds_append]
          have hpre : srandSeeds (Event.srandCall seed ::
              (if sp then [] else [Event.insertPeds])) = [seed] := by
            by_cases hsp : sp <;> simp [hsp, srandSeeds]
          have hpost : srandSeeds (Event.runDone t ::
              (if sp then [Event.resetPeds] else [Event.deallocPeds])) = [] := by
            by_cases hsp : sp <;> simp [hsp, srandSeeds]
          rw [hpre, hpost, hrec.2]
          simp only [List.append_nil, List.singleton_append]
          exact seed_shift_map seed n
      · exact absurd ho (h 0 (by omega) ∘ by rw [Nat.add_zero]; exact id)

/-- When the first failing run of a `run_simulations` call is run j, exactly
runs 0 through j execute (seeding the stream with entry seed + 0 .. + j) and
the call returns FAILURE. -/
theorem runSimsAux_overflow (outcome : Nat → RunOutcome) (sp : Bool) :
    ∀ j i seed count, j < count →
      outcome (i + j) = RunOutcome.conflictOverflow →
      (∀ k, k < j → outcome (i + k) ≠ RunOutcome.conflictOverflow) →
      (runSimsAux outcome sp i seed count).2 = none ∧
      srandSeeds (runSimsAux outcome sp i seed count).1 =
        (List.range (j + 1)).map (fun k : Nat => seed + (k : Int)) := by
  intro j
  induction j with
  | zero =>
      intro i seed count hc hov _
      match count, hc with
      | n + 1, _ =>
        rw [Nat.add_zero] at hov
        constructor
        · simp [runSimsAux, hov]
        · by_cases hsp : sp <;>
            simp [runSimsAux, hov, hsp, srandSeeds, List.range_succ]
  | succ m ih =>
      intro i seed count hc hov hfirst
      match count, hc with
      | n + 1, hc =>
        have h0 : outcome i ≠ RunOutcome.conflictOverflow := by
          have := hfirst 0 (by omega)
          rwa [Nat.add_zero] at this
        rcases ho : outcome i with t | _
        · have hrec := ih (i + 1) (seed + 1) n (by omega)
            (by rwa [show i + 1 + m = i + (m + 1) by omega])
            (by
              intro k hk
              have := hfirst (k + 1) (by omega)
              rwa [show i + (k + 1) = i + 1 + k by omega] at this)
          constructor
          · simp only [runSimsAux, ho]
            exact hrec.1
          · simp only [runSimsAux, ho, srandSeeds_append]
            have hpre : srandSeeds (Event.srandCall seed ::
                (if sp then [] else [Event.insertPeds])) = [seed] := by
              by_cases hsp : sp <;> simp [hsp, srandSeeds]
            have hpost : srandSeeds (Event.runDone t ::
                (if sp then [Event.resetPeds] else [Event.deallocPeds])) = [] := by
              by_cases hsp : sp <;> simp [hsp, srandSeeds]
            rw [hpre, hpost, hrec.2]
            simp only [List.append_nil, List.singleton_append]
            exact seed_shift_map seed (m + 1)
        · exact absurd ho h0

/-- Every seed passed to `srand` inside one `run_simulations` call lies in
the interval from the entry seed (inclusive) to entry seed + count
(exclusive), the seed list is strictly increasing, and a successful return
carries entry seed + count. -/
theorem runSimsAux_seed_bounds (outcome : Nat → RunOutcome) (sp : Bool) :
    ∀ count i seed,
      (∀ x ∈ srandSeeds (runSimsAux outcome sp i seed count).1,
        seed ≤ x ∧ x < seed + count) ∧
      List.Pairwise (· < ·) (srandSeeds (runSimsAux outcome sp i seed count).1) ∧
      (∀ s2, (runSimsAux outcome sp i seed count).2 = some s2 → s2 = seed + count) := by
  intro count
  induction count with
  | zero =>
      intro i seed
      refine ⟨by simp [runSimsAux, srandSeeds], by simp [runSimsAux, srandSeeds], ?_⟩
      intro s2 hs2
      simp [runSimsAux] at hs2
      omega
  | succ n ih =>
      intro i seed
      have hpre : srandSeeds (Event.srandCall seed ::
          (if sp then [] else [Event.insertPeds])) = [seed] := by
        by_cases hsp : sp <;> simp [hsp, srandSeeds]
      rcases ho : outcome i with t | _
      · have hrec := ih (i + 1) (seed + 1)
        have hpost : srandSeeds (Event.runDone t ::
            (if sp then [Event.resetPeds] else [Event.deallocPeds])) = [] := by
          by_cases hsp : sp <;> simp [hsp, srandSeeds]
        have hseeds : srandSeeds (runSimsAux outcome sp i seed (n + 1)).1 =
            seed :: srandSeeds (runSimsAux outcome sp (i + 1) (seed + 1) n).1 := by
          simp only [runSimsAux, ho, srandSeeds_append, hpre, hpost]
          simp
        refine ⟨?_, ?_, ?_⟩
        · intro x hx
          rw [hseeds] at hx
          rcases List.mem_cons.mp hx with h | h
          · omega
          · have := hrec.1 x h
            omega
        · rw [hseeds]
          refine List.pairwise_cons.mpr ⟨?_, hrec.2.1⟩
          intro x hx
          have := hrec.1 x hx
          omega
        · intro s2 hs2
          simp only [runSimsAux, ho] at hs2
          have := hrec.2.2 s2 hs2
          omega
      · refine ⟨?_, ?_, ?_⟩
        · intro x hx
          simp only [runSimsAux, ho, hpre] at hx
          rw [List.mem_singleton] at hx
          omega
        · simp [runSimsAux, ho, hpre]
        · intro s2 hs2
          simp [runSimsAux, ho] at hs2

theorem srandSeeds_calc_run (R : List Event) :
    srandSeeds ([Event.calcFF FFStatus.SUCCESS, Event.runSimsCalled] ++ R) =
      srandSeeds R := by
  simp [srandSeeds_append, srandSeeds]

theorem srandSeeds_epilogue (cli : CliArgs) (R : List Event) (idx : Nat) :
    srandSeeds ([Event.calcFF FFStatus.SUCCESS, Event.runSimsCalled] ++ R ++
      (if cli.uses_auxiliary_data then [Event.deallocExits] else []) ++
      (if cli.output_format = OutputFormat.OUTPUT_HEATMAP then
        [Event.heatmapPrint, Event.heatmapReset] else []) ++
      [Event.printStatus idx]) = srandSeeds R := by
  by_cases h1 : cli.uses_auxiliary_data <;>
    by_cases h2 : cli.output_format = OutputFormat.OUTPUT_HEATMAP <;>
      simp [h1, h2, srandSeeds_append, srandSeeds]

theorem srandSeeds_inaccessible (cli : CliArgs) (idx : Nat) :
    srandSeeds ([Event.calcFF FFStatus.INACCESSIBLE_EXIT, Event.printInaccessible] ++
      (if cli.uses_auxiliary_data then [Event.deallocExits] else []) ++
      [Event.printStatus idx]) = [] := by
  by_cases h : cli.uses_auxiliary_data <;> simp [h, srandSeeds_append, srandSeeds]

/-- Seed discipline of one loop iteration: the seeds any outcome of
`setBody` passes to `srand` are strictly increasing and at least the entry
seed; on `cont` they are below the continuation seed, which is at least the
entry seed. -/
theorem setBody_seeds (cli : CliArgs) (s : SetSpec) (rest : List SetSpec)
    (seed : Int) (idx : Nat) :
    (∀ e, setBody cli s rest seed idx = StepRes.halted e →
      List.Pairwise (· < ·) (srandSeeds e) ∧ ∀ x ∈ srandSeeds e, seed ≤ x) ∧
    (∀ e, setBody cli s rest seed idx = StepRes.finished e →
      List.Pairwise (· < ·) (srandSeeds e) ∧ ∀ x ∈ srandSeeds e, seed ≤ x) ∧
    (∀ s2 i2 r e, setBody cli s rest seed idx = StepRes.cont s2 i2 r e →
      List.Pairwise (· < ·) (srandSeeds e) ∧
      (∀ x ∈ srandSeeds e, seed ≤ x ∧ x < s2) ∧ seed ≤ s2) := by
  obtain ⟨hbnd, hpw, hnext⟩ :=
    runSimsAux_seed_bounds s.runOutcome cli.static_pedestrians cli.num_simulations 0 seed
  rcases hff : s.ffStatus with _ | _ | _
  · -- SUCCESS
    rcases hr : (runSimsAux s.runOutcome cli.static_pedestrians 0 seed
        cli.num_simulations).2 with _ | s2
    · -- run_simulations returned FAILURE
      have hstep : setBody cli s rest seed idx = StepRes.halted
          ([Event.calcFF FFStatus.SUCCESS, Event.runSimsCalled] ++
           (runSimsAux s.runOutcome cli.static_pedestrians 0 seed
             cli.num_simulations).1) := by
        simp only [setBody, hff, run_simulations, hr]
      refine ⟨?_, ?_, ?_⟩
      · intro e heq
        rw [hstep] at heq
        cases heq
        rw [srandSeeds_calc_run]
        exact ⟨hpw, fun x hx => (hbnd x hx).1⟩
      · intro e heq
        rw [hstep] at heq
        cases heq
      · intro s2 i2 r e heq
        rw [hstep] at heq
        cases heq
    · -- run_simulations succeeded with final seed s2
      have hs2 : s2 = seed + cli.num_simulations := hnext s2 hr
      have hseeds := srandSeeds_epilogue cli
        (runSimsAux s.runOutcome cli.static_pedestrians 0 seed cli.num_simulations).1 idx
      rcases hse : cli.static_exits with _ | _
      · -- static_exits = false : the loop continues with the next set
        have hstep : setBody cli s rest seed idx = StepRes.cont s2 (idx + 1) rest
            ([Event.calcFF FFStatus.SUCCESS, Event.runSimsCalled] ++
             (runSimsAux s.runOutcome cli.static_pedestrians 0 seed
               cli.num_simulations).1 ++
             (if cli.uses_auxiliary_data then [Event.deallocExits] else []) ++
             (if cli.output_format = OutputFormat.OUTPUT_HEATMAP then
               [Event.heatmapPrint, Event.heatmapReset] else []) ++
             [Event.printStatus idx]) := by
          simp only [setBody, hff, run_simulations, hr, hse]
          simp
        refine ⟨?_, ?_, ?_⟩
        · intro e heq
          rw [hstep] at heq
          cases heq
        · intro e heq
          rw [hstep] at heq
          cases heq
        · intro s2b i2 r e heq
          rw [hstep] at heq
          cases heq
          rw [hseeds]
          have hnum : (0 : Int) ≤ (cli.num_simulations : Int) := Int.natCast_nonneg _
          refine ⟨hpw, ?_, by omega⟩
          intro x hx
          have := hbnd x hx
          omega
      · -- static_exits = true : the loop breaks
        have hstep : setBody cli s rest seed idx = StepRes.finished
            ([Event.calcFF FFStatus.SUCCESS, Event.runSimsCalled] ++
             (runSimsAux s.runOutcome cli.static_pedestrians 0 seed
               cli.num_simulations).1 ++
             (if cli.uses_auxiliary_data then [Event.deallocExits] else []) ++
             (if cli.output_format = OutputFormat.OUTPUT_HEATMAP then
               [Event.heatmapPrint, Event.heatmapReset] else []) ++
             [Event.printStatus idx]) := by
          simp only [setBody, hff, run_simulations, hr, hse]
          simp
        refine ⟨?_, ?_, ?_⟩
        · intro e heq
          rw [hstep] at heq
          cases heq
        · intro e heq
          rw [hstep] at heq
          cases heq
          rw [hseeds]
          exact ⟨hpw, fun x hx => (hbnd x hx).1⟩
        · intro s2b i2 r e heq
          rw [hstep] at heq
          cases heq
  · -- FAILURE
    have hstep : setBody cli s rest seed idx =
        StepRes.halted [Event.calcFF FFStatus.FAILURE] := by
      simp only [setBody, hff]
    refine ⟨?_, ?_, ?_⟩
    · intro e heq
      rw [hstep] at heq
      cases heq
      simp [srandSeeds]
    · intro e heq
      rw [hstep] at heq
      cases heq
    · intro s2 i2 r e heq
      rw [hstep] at heq
      cases heq
  · -- INACCESSIBLE_EXIT
    have hstep : setBody cli s rest seed idx = StepRes.cont seed (idx + 1) rest
        ([Event.calcFF FFStatus.INACCESSIBLE_EXIT, Event.printInaccessible] ++
         (if cli.uses_auxiliary_data then [Event.deallocExits] else []) ++
         [Event.printStatus idx]) := by
      simp only [setBody, hff]
    refine ⟨?_, ?_, ?_⟩
    · intro e heq
      rw [hstep] at heq
      cases heq
    · intro e heq
      rw [hstep] at heq
      cases heq
    · intro s2 i2 r e heq
      rw [hstep] at heq
      cases heq
      rw [srandSeeds_inaccessible]
      exact ⟨List.Pairwise.nil, by simp, by omega⟩

/-- Seed discipline of `mainStep` (lifting `setBody_seeds` over the
auxiliary-data dispatch). -/
theorem mainStep_seeds (cli : CliArgs) (staticSet : SetSpec) (sets : List SetSpec)
    (seed : Int) (idx : Nat) :
    (∀ e, mainStep cli staticSet sets seed idx = StepRes.halted e →
      List.Pairwise (· < ·) (srandSeeds e) ∧ ∀ x ∈ srandSeeds e, seed ≤ x) ∧
    (∀ e, mainStep cli staticSet sets seed idx = StepRes.finished e →
      List.Pairwise (· < ·) (srandSeeds e) ∧ ∀ x ∈ srandSeeds e, seed ≤ x) ∧
    (∀ s2 i2 r e, mainStep cli staticSet sets seed idx = StepRes.cont s2 i2 r e →
      List.Pairwise (· < ·) (srandSeeds e) ∧
      (∀ x ∈ srandSeeds e, seed ≤ x ∧ x < s2) ∧ seed ≤ s2) := by
  by_cases haux : cli.uses_auxiliary_data
  · cases sets with
    | nil =>
        refine ⟨?_, ?_, ?_⟩
        · intro e heq
          simp [mainStep, haux] at heq
        · intro e heq
          simp only [mainStep, haux, if_true, StepRes.finished.injEq] at heq
          subst heq
          simp [srandSeeds]
        · intro s2 i2 r e heq
          simp [mainStep, haux] at heq
    | cons s rest =>
        have hb := setBody_seeds cli s rest seed idx
        refine ⟨?_, ?_, ?_⟩
        · intro e heq
          exact hb.1 e (by simpa [mainStep, haux] using heq)
        · intro e heq
          exact hb.2.1 e (by simpa [mainStep, haux] using heq)
        · intro s2 i2 r e heq
          exact hb.2.2 s2 i2 r e (by simpa [mainStep, haux] using heq)
  · have hb := setBody_seeds cli staticSet sets seed idx
    refine ⟨?_, ?_, ?_⟩
    · intro e heq
      exact hb.1 e (by simpa [mainStep, haux] using heq)
    · intro e heq
      exact hb.2.1 e (by simpa [mainStep, haux] using heq)
    · intro s2 i2 r e heq
      exact hb.2.2 s2 i2 r e (by simpa [mainStep, haux] using heq)

/-- Over the whole process trace, the seeds passed to `srand` are strictly
increasing and bounded below by the seed on entry. -/
theorem mainRun_seeds (cli : CliArgs) (staticSet : SetSpec) :
    ∀ fuel sets seed idx,
      List.Pairwise (· < ·)
        (srandSeeds (eventsOf (mainRun cli staticSet fuel sets seed idx))) ∧
      ∀ x ∈ srandSeeds (eventsOf (mainRun cli staticSet fuel sets seed idx)),
        seed ≤ x := by
  intro fuel
  induction fuel with
  | zero =>
      intro sets seed idx
      simp [mainRun, eventsOf, srandSeeds]
  | succ n ih =>
      intro sets seed idx
      obtain ⟨hh, hf, hc⟩ := mainStep_seeds cli staticSet sets seed idx
      rcases hres : mainStep cli staticSet sets seed idx with ⟨s2, i2, r, e⟩ | e | e
      · obtain ⟨hp, hbound, hle⟩ := hc s2 i2 r e hres
        obtain ⟨hp2, hlow2⟩ := ih r s2 i2
        have hev : eventsOf (mainRun cli staticSet (n + 1) sets seed idx) =
            e ++ eventsOf (mainRun cli staticSet n r s2 i2) := by
          simp only [mainRun, hres]
          rcases mainRun cli staticSet n r s2 i2 <;> simp [eventsOf]
        rw [hev, srandSeeds_append]
        constructor
        · apply List.pairwise_append.mpr
          refine ⟨hp, hp2, ?_⟩
          intro x hx y hy
          have h1 := (hbound x hx).2
          have h2 := hlow2 y hy
          omega
        · intro x hx
          rcases List.mem_append.mp hx with h | h
          · exact (hbound x h).1
          · have := hlow2 x h
            omega
      · have hev : mainRun cli staticSet (n + 1) sets seed idx = LoopResult.halted e := by
          simp [mainRun, hres]
        rw [hev]
        exact hh e hres
      · have hev : mainRun cli staticSet (n + 1) sets seed idx =
            LoopResult.finished e := by
          simp [mainRun, hres]
        rw [hev]
        exact hf e hres

/-- Claim C10: within `run_simulations`, the i-th run (0-indexed) calls
`srand` exactly once, with the set-entry seed plus i, and the seed leaves as
entry seed plus the number of runs; globally, `cli_args.seed` is never
reset, so the seeds of all `srand` calls across the whole process are
strictly increasing. -/
theorem C10_seed_progression :
    (∀ cli seed outcome,
      (∀ k, k < cli.num_simulations → outcome k ≠ RunOutcome.conflictOverflow) →
      srandSeeds (run_simulations cli seed outcome).1 =
        (List.range cli.num_simulations).map (fun k : Nat => seed + (k : Int)) ∧
      (run_simulations cli seed outcome).2 = some (seed + cli.num_simulations)) ∧
    (∀ cli staticSet fuel sets seed idx,
      List.Pairwise (· < ·)
        (srandSeeds (eventsOf (mainRun cli staticSet fuel sets seed idx)))) := by
  constructor
  · intro cli seed outcome h
    have hk := runSimsAux_all_ok outcome cli.static_pedestrians cli.num_simulations 0 seed
      (by intro k hk; simpa using h k hk)
    exact ⟨hk.2, hk.1⟩
  · intro cli staticSet fuel sets seed idx
    exact (mainRun_seeds cli staticSet fuel sets seed idx).1

/-- A simulation set whose runs all complete in two timesteps. -/
def setAllOk : SetSpec where
  ffStatus := FFStatus.SUCCESS
  runOutcome := fun _ => RunOutcome.ok 2

/-- A simulation set whose every run hits CONFLICT_SET_OVERFLOW. -/
def setOverflow : SetSpec where
  ffStatus := FFStatus.SUCCESS
  runOutcome := fun _ => RunOutcome.conflictOverflow

/-- A simulation set whose floor-field combination reports an inaccessible
region. -/
def setInaccessible : SetSpec where
  ffStatus := FFStatus.INACCESSIBLE_EXIT
  runOutcome := fun _ => RunOutcome.ok 0

/-- Command-line state: auxiliary-data origin, timestep-count output, three
runs per set. -/
def cliTimesteps3 : CliArgs where
  uses_auxiliary_data := true
  static_exits := false
  static_pedestrians := false
  output_format := OutputFormat.OUTPUT_TIMESTEPS_COUNT
  num_simulations := 3

/-- Like `cliTimesteps3` but a single run per set. -/
def cliTimesteps1 : CliArgs :=
  { cliTimesteps3 with num_simulations := 1 }

/-- Auxiliary-data origin with heatmap output and two runs per set. -/
def cliHeatmap2 : CliArgs :=
  { cliTimesteps3 with
      output_format := OutputFormat.OUTPUT_HEATMAP
      num_simulations := 2 }

/-- Command-line state of a static-exit origin (no auxiliary data). -/
def cliStatic : CliArgs where
  uses_auxiliary_data := false
  static_exits := true
  static_pedestrians := true
  output_format := OutputFormat.OUTPUT_TIMESTEPS_COUNT
  num_simulations := 1

/-- Witness for C10 at two runs from seed 10 and a two-set process. -/
theorem C10_witness :
    srandSeeds (run_simulations cliHeatmap2 10 (fun _ => RunOutcome.ok 2)).1 =
      [10, 11] ∧
    (run_simulations cliHeatmap2 10 (fun _ => RunOutcome.ok 2)).2 = some 12 ∧
    List.Pairwise (· < ·)
      (srandSeeds (eventsOf (mainRun cliHeatmap2 setAllOk 4 [setAllOk] 10 0))) := by
  obtain ⟨h1, h2⟩ := C10_seed_progression
  obtain ⟨ha, hb⟩ := h1 cliHeatmap2 10 (fun _ => RunOutcome.ok 2) (by intro k _; simp)
  refine ⟨?_, ?_, h2 cliHeatmap2 setAllOk 4 [setAllOk] 10 0⟩
  · rw [ha]; decide
  · rw [hb]; decide

/-- Counterexample to claim C7 as stated: with three runs per set and two
sets, a CONFLICT_SET_OVERFLOW in run 0 of set 0 halts the whole process
(`main` returns END_PROGRAM): run 1 is never seeded, and the floor field of
the second set is never computed — subsequent runs and simulation sets do
not execute. -/
theorem C7_counterexample :
    mainRun cliTimesteps3 setAllOk 5 [setOverflow, setAllOk] 10 0 =
      LoopResult.halted [Event.calcFF FFStatus.SUCCESS, Event.runSimsCalled,
        Event.srandCall 10, Event.insertPeds] ∧
    Event.srandCall 11 ∉
      eventsOf (mainRun cliTimesteps3 setAllOk 5 [setOverflow, setAllOk] 10 0) ∧
    (eventsOf (mainRun cliTimesteps3 setAllOk 5 [setOverflow, setAllOk] 10 0)).count
      (Event.calcFF FFStatus.SUCCESS) = 1 := by
  refine ⟨by decide, by decide, by decide⟩

/-- Claim C7 (amended): a CONFLICT_SET_OVERFLOW is fatal for the whole
process, not only for the current run: when run j of a set is the first to
fail, exactly runs 0 through j execute (`srand` is seeded with entry seed
through entry seed + j), `run_simulations` returns FAILURE, and `main`
returns END_PROGRAM immediately — no later run of the set and no subsequent
simulation set executes. -/
theorem C7_overflow_aborts_process (cli : CliArgs) (staticSet s : SetSpec)
    (rest : List SetSpec) (seed : Int) (idx : Nat) (j : Nat)
    (hj : j < cli.num_simulations)
    (hov : s.runOutcome j = RunOutcome.conflictOverflow)
    (hfirst : ∀ k, k < j → s.runOutcome k ≠ RunOutcome.conflictOverflow)
    (haux : cli.uses_auxiliary_data = true)
    (hff : s.ffStatus = FFStatus.SUCCESS) :
    (run_simulations cli seed s.runOutcome).2 = none ∧
    srandSeeds (run_simulations cli seed s.runOutcome).1 =
      (List.range (j + 1)).map (fun k : Nat => seed + (k : Int)) ∧
    mainStep cli staticSet (s :: rest) seed idx =
      StepRes.halted ([Event.calcFF FFStatus.SUCCESS, Event.runSimsCalled] ++
        (run_simulations cli seed s.runOutcome).1) := by
  have hkey := runSimsAux_overflow s.runOutcome cli.static_pedestrians j 0 seed
    cli.num_simulations hj (by simpa using hov) (by intro k hk; simpa using hfirst k hk)
  refine ⟨hkey.1, hkey.2, ?_⟩
  simp only [mainStep, haux, if_true]
  simp only [setBody, hff, run_simulations, hkey.1]

/-- Witness for C7 at a concrete overflow in run 0. -/
theorem C7_witness :
    (run_simulations cliTimesteps3 10 setOverflow.runOutcome).2 = none ∧
    srandSeeds (run_simulations cliTimesteps3 10 setOverflow.runOutcome).1 =
      (List.range 1).map (fun k : Nat => 10 + (k : Int)) ∧
    mainStep cliTimesteps3 setAllOk [setOverflow, setAllOk] 10 0 =
      StepRes.halted ([Event.calcFF FFStatus.SUCCESS, Event.runSimsCalled] ++
        (run_simulations cliTimesteps3 10 setOverflow.runOutcome).1) :=
  C7_overflow_aborts_process cliTimesteps3 setAllOk setOverflow [setAllOk] 10 0 0
    (by decide) rfl (fun k hk => absurd hk (Nat.not_lt_zero k)) rfl rfl

/-- Counterexample to claim C9 as stated: with timestep-count output, two
simulation sets both execute, yet the heatmap grid is never reset between
them — the reset only happens under OUTPUT_HEATMAP. -/
theorem C9_counterexample :
    (eventsOf (mainRun cliTimesteps1 setAllOk 5 [setAllOk, setAllOk] 0 0)).count
      Event.heatmapReset = 0 ∧
    (eventsOf (mainRun cliTimesteps1 setAllOk 5 [setAllOk, setAllOk] 0 0)).count
      Event.runSimsCalled = 2 := by
  refine ⟨by decide, by decide⟩

/-- `run_simulations` never emits a heatmap reset: the run loop of main.c
lines 142-198 contains no `reset_integer_grid(heatmap_grid, ...)` call. -/
theorem runSimsAux_no_heatmap_reset (outcome : Nat → RunOutcome) (sp : Bool) :
    ∀ count i seed, Event.heatmapReset ∉ (runSimsAux outcome sp i seed count).1 := by
  intro count
  induction count with
  | zero => intro i seed; simp [runSimsAux]
  | succ n ih =>
      intro i seed
      rcases ho : outcome i with t | _
      · rcases Bool.eq_false_or_eq_true sp with hsp | hsp <;>
          subst hsp <;> simp [runSimsAux, ho, ih]
      · rcases Bool.eq_false_or_eq_true sp with hsp | hsp <;>
          subst hsp <;> simp [runSimsAux, ho]

/-- With any output format other than OUTPUT_HEATMAP, no outcome of a loop
iteration carries a heatmap reset (the reset at main.c line 112 sits behind
the `output_format == OUTPUT_HEATMAP` guard at line 109). -/
theorem setBody_no_heatmap_reset (cli : CliArgs) (s : SetSpec) (rest : List SetSpec)
    (seed : Int) (idx : Nat)
    (hfmt : cli.output_format ≠ OutputFormat.OUTPUT_HEATMAP) :
    (∀ e, setBody cli s rest seed idx = StepRes.halted e →
      Event.heatmapReset ∉ e) ∧
    (∀ e, setBody cli s rest seed idx = StepRes.finished e →
      Event.heatmapReset ∉ e) ∧
    (∀ s2 i2 r e, setBody cli s rest seed idx = StepRes.cont s2 i2 r e →
      Event.heatmapReset ∉ e) := by
  have hR := runSimsAux_no_heatmap_reset s.runOutcome cli.static_pedestrians
    cli.num_simulations 0 seed
  rcases hff : s.ffStatus with _ | _ | _
  · -- SUCCESS
    rcases hr : (runSimsAux s.runOutcome cli.static_pedestrians 0 seed
        cli.num_simulations).2 with _ | s2
    · have hstep : setBody cli s rest seed idx = StepRes.halted
          ([Event.calcFF FFStatus.SUCCESS, Event.runSimsCalled] ++
           (runSimsAux s.runOutcome cli.static_pedestrians 0 seed
             cli.num_simulations).1) := by
        simp only [setBody, hff, run_simulations, hr]
      refine ⟨?_, ?_, ?_⟩
      · intro e heq
        rw [hstep] at heq
        cases heq
        simp [hR]
      · intro e heq
        rw [hstep] at heq
        cases heq
      · intro s2 i2 r e heq
        rw [hstep] at heq
        cases heq
    · rcases hse : cli.static_exits with _ | _
      · have hstep : setBody cli s rest seed idx = StepRes.cont s2 (idx + 1) rest
            ([Event.calcFF FFStatus.SUCCESS, Event.runSimsCalled] ++
             (runSimsAux s.runOutcome cli.static_pedestrians 0 seed
               cli.num_simulations).1 ++
             (if cli.uses_auxiliary_data then [Event.deallocExits] else []) ++
             (if cli.output_format = OutputFormat.OUTPUT_HEATMAP then
               [Event.heatmapPrint, Event.heatmapReset] else []) ++
             [Event.printStatus idx]) := by
          simp only [setBody, hff, run_simulations, hr, hse]
          simp
        refine ⟨?_, ?_, ?_⟩
        · intro e heq
          rw [hstep] at heq
          cases heq
        · intro e heq
          rw [hstep] at heq
          cases heq
        · intro s2b i2 r e heq
          rw [hstep] at heq
          cases heq
          by_cases haux : cli.uses_auxiliary_data <;> simp [haux, hfmt, hR]
      · have hstep : setBody cli s rest seed idx = StepRes.finished
            ([Event.calcFF FFStatus.SUCCESS, Event.runSimsCalled] ++
             (runSimsAux s.runOutcome cli.static_pedestrians 0 seed
               cli.num_simulations).1 ++
             (if cli.uses_auxiliary_data then [Event.deallocExits] else []) ++
             (if cli.output_format = OutputFormat.OUTPUT_HEATMAP then
               [Event.heatmapPrint, Event.heatmapReset] else []) ++
             [Event.printStatus idx]) := by
          simp only [setBody, hff, run_simulations, hr, hse]
          simp
        refine ⟨?_, ?_, ?_⟩
        · intro e heq
          rw [hstep] at heq
          cases heq
        · intro e heq
          rw [hstep] at heq
          cases heq
          by_cases haux : cli.uses_auxiliary_data <;> simp [haux, hfmt, hR]
        · intro s2b i2 r e heq
          rw [hstep] at heq
          cases heq
  · -- FAILURE
    have hstep : setBody cli s rest seed idx =
        StepRes.halted [Event.calcFF FFStatus.FAILURE] := by
      simp only [setBody, hff]
    refine ⟨?_, ?_, ?_⟩
    · intro e heq
      rw [hstep] at heq
      cases heq
      simp
    · intro e heq
      rw [hstep] at heq
      cases heq
    · intro s2 i2 r e heq
      rw [hstep] at heq
      cases heq
  · -- INACCESSIBLE_EXIT
    have hstep : setBody cli s rest seed idx = StepRes.cont seed (idx + 1) rest
        ([Event.calcFF FFStatus.INACCESSIBLE_EXIT, Event.printInaccessible] ++
         (if cli.uses_auxiliary_data then [Event.deallocExits] else []) ++
         [Event.printStatus idx]) := by
      simp only [setBody, hff]
    refine ⟨?_, ?_, ?_⟩
    · intro e heq
      rw [hstep] at heq
      cases heq
    · intro e heq
      rw [hstep] at heq
      cases heq
    · intro s2 i2 r e heq
      rw [hstep] at heq
      cases heq
      by_cases haux : cli.uses_auxiliary_data <;> simp [haux]

/-- `setBody_no_heatmap_reset` lifted over the auxiliary-data dispatch. -/
theorem mainStep_no_heatmap_reset (cli : CliArgs) (staticSet : SetSpec)
    (sets : List SetSpec) (seed : Int) (idx : Nat)
    (hfmt : cli.output_format ≠ OutputFormat.OUTPUT_HEATMAP) :
    (∀ e, mainStep cli staticSet sets seed idx = StepRes.halted e →
      Event.heatmapReset ∉ e) ∧
    (∀ e, mainStep cli staticSet sets seed idx = StepRes.finished e →
      Event.heatmapReset ∉ e) ∧
    (∀ s2 i2 r e, mainStep cli staticSet sets seed idx = StepRes.cont s2 i2 r e →
      Event.heatmapReset ∉ e) := by
  by_cases haux : cli.uses_auxiliary_data
  · cases sets with
    | nil =>
        refine ⟨?_, ?_, ?_⟩
        · intro e heq
          simp [mainStep, haux] at heq
        · intro e heq
          simp only [mainStep, haux, if_true, StepRes.finished.injEq] at heq
          subst heq
          simp
        · intro s2 i2 r e heq
          simp [mainStep, haux] at heq
    | cons s rest =>
        have hb := setBody_no_heatmap_reset cli s rest seed idx hfmt
        refine ⟨?_, ?_, ?_⟩
        · intro e heq
          exact hb.1 e (by simpa [mainStep, haux] using heq)
        · intro e heq
          exact hb.2.1 e (by simpa [mainStep, haux] using heq)
        · intro s2 i2 r e heq
          exact hb.2.2 s2 i2 r e (by simpa [mainStep, haux] using heq)
  · have hb := setBody_no_heatmap_reset cli staticSet sets seed idx hfmt
    refine ⟨?_, ?_, ?_⟩
    · intro e heq
      exact hb.1 e (by simpa [mainStep, haux] using heq)
    · intro e heq
      exact hb.2.1 e (by simpa [mainStep, haux] using heq)
    · intro s2 i2 r e heq
      exact hb.2.2 s2 i2 r e (by simpa [mainStep, haux] using heq)

/-- With any output format other than OUTPUT_HEATMAP, the whole process
trace contains no heatmap reset, whatever the origin, the sets, the seed or
the fuel. -/
theorem mainRun_no_heatmap_reset (cli : CliArgs) (staticSet : SetSpec)
    (hfmt : cli.output_format ≠ OutputFormat.OUTPUT_HEATMAP) :
    ∀ fuel sets seed idx,
      Event.heatmapReset ∉ eventsOf (mainRun cli staticSet fuel sets seed idx) := by
  intro fuel
  induction fuel with
  | zero =>
      intro sets seed idx
      simp [mainRun, eventsOf]
  | succ n ih =>
      intro sets seed idx
      obtain ⟨hh, hf, hc⟩ := mainStep_no_heatmap_reset cli staticSet sets seed idx hfmt
      rcases hres : mainStep cli staticSet sets seed idx with ⟨s2, i2, r, e⟩ | e | e
      · have hev : eventsOf (mainRun cli staticSet (n + 1) sets seed idx) =
            e ++ eventsOf (mainRun cli staticSet n r s2 i2) := by
          simp only [mainRun, hres]
          rcases mainRun cli staticSet n r s2 i2 <;> simp [eventsOf]
        rw [hev]
        simp [List.mem_append, hc s2 i2 r e hres, ih r s2 i2]
      · have hev : mainRun cli staticSet (n + 1) sets seed idx =
            LoopResult.halted e := by
          simp [mainRun, hres]
        rw [hev]
        simpa [eventsOf] using hh e hres
      · have hev : mainRun cli staticSet (n + 1) sets seed idx =
            LoopResult.finished e := by
          simp [mainRun, hres]
        rw [hev]
        simpa [eventsOf] using hf e hres

/-- Claim C9 (amended): the heatmap is never reset between the runs of one
simulation set (`run_simulations` performs no reset), and between sets it is
reset exactly when the output format is OUTPUT_HEATMAP: right after the
heatmap is printed at the end of the completed set and before the loop
proceeds to the next set.  For any other output format no reset ever occurs
anywhere in the process trace. -/
theorem C9_heatmap_reset_policy :
    (∀ outcome sp i seed count,
      Event.heatmapReset ∉ (runSimsAux outcome sp i seed count).1) ∧
    (∀ cli staticSet s rest seed idx s2,
      cli.uses_auxiliary_data = true →
      cli.static_exits = false →
      cli.output_format = OutputFormat.OUTPUT_HEATMAP →
      s.ffStatus = FFStatus.SUCCESS →
      (run_simulations cli seed s.runOutcome).2 = some s2 →
      mainStep cli staticSet (s :: rest) seed idx =
        StepRes.cont s2 (idx + 1) rest
          ([Event.calcFF FFStatus.SUCCESS, Event.runSimsCalled] ++
           (run_simulations cli seed s.runOutcome).1 ++
           [Event.deallocExits] ++
           [Event.heatmapPrint, Event.heatmapReset] ++
           [Event.printStatus idx])) ∧
    (∀ cli staticSet fuel sets seed idx,
      cli.output_format ≠ OutputFormat.OUTPUT_HEATMAP →
      Event.heatmapReset ∉ eventsOf (mainRun cli staticSet fuel sets seed idx)) := by
  refine ⟨?_, ?_, ?_⟩
  · intro outcome sp i seed count
    exact runSimsAux_no_heatmap_reset outcome sp count i seed
  · intro cli staticSet s rest seed idx s2 haux hse hfmt hff hsome
    rw [run_simulations] at hsome
    simp only [mainStep, haux, if_true]
    simp only [setBody, hff, run_simulations, hsome, hse, hfmt, haux]
    simp
  · intro cli staticSet fuel sets seed idx hfmt
    exact mainRun_no_heatmap_reset cli staticSet hfmt fuel sets seed idx

/-- Witness for C9: a heatmap-format set of two runs, whose reset event sits
between the completed set's run events and the continuation to the next
set; and a non-heatmap process trace with no reset at all. -/
theorem C9_witness :
    mainStep cliHeatmap2 setOverflow [setAllOk] 10 0 =
      StepRes.cont 12 1 []
        ([Event.calcFF FFStatus.SUCCESS, Event.runSimsCalled] ++
         (run_simulations cliHeatmap2 10 setAllOk.runOutcome).1 ++
         [Event.deallocExits] ++
         [Event.heatmapPrint, Event.heatmapReset] ++
         [Event.printStatus 0]) ∧
    Event.heatmapReset ∉ (runSimsAux setAllOk.runOutcome false 0 10 2).1 ∧
    Event.heatmapReset ∉
      eventsOf (mainRun cliTimesteps1 setAllOk 5 [setAllOk, setAllOk] 0 0) :=
  ⟨C9_heatmap_reset_policy.2.1 cliHeatmap2 setOverflow setAllOk [] 10 0 12
      rfl rfl rfl rfl (by decide),
   C9_heatmap_reset_policy.1 setAllOk.runOutcome false 0 10 2,
   C9_heatmap_reset_policy.2.2 cliTimesteps1 setAllOk 5 [setAllOk, setAllOk] 0 0
      (by decide)⟩

/-- One iteration of `main`'s loop for a static-exit origin whose set is
inaccessible: print, no dealloc (the guard is false), `continue` with the
same set source and an incremented set index. -/
theorem staticInaccessibleStep (seed : Int) (idx : Nat) :
    mainStep cliStatic setInaccessible [] seed idx =
      StepRes.cont seed (idx + 1) []
        [Event.calcFF FFStatus.INACCESSIBLE_EXIT, Event.printInaccessible,
         Event.printStatus idx] := by
  simp [mainStep, setBody, cliStatic, setInaccessible]

theorem static_inaccessible_loops (fuel : Nat) : ∀ (seed : Int) (idx : Nat),
    ∃ evs, mainRun cliStatic setInaccessible fuel [] seed idx =
      LoopResult.outOfFuel evs ∧
      Event.runSimsCalled ∉ evs ∧ Event.deallocExits ∉ evs := by
  induction fuel with
  | zero =>
      intro seed idx
      exact ⟨[], rfl, by simp, by simp⟩
  | succ n ih =>
      intro seed idx
      obtain ⟨evs, heq, h1, h2⟩ := ih seed (idx + 1)
      refine ⟨[Event.calcFF FFStatus.INACCESSIBLE_EXIT, Event.printInaccessible,
        Event.printStatus idx] ++ evs, ?_, ?_, ?_⟩
      · simp only [mainRun, staticInaccessibleStep, heq]
      · simp [h1]
      · simp [h2]

/-- Claim C1 (the code at the failing input): for a static-exit origin whose
floor-field combination reports INACCESSIBLE_EXIT, `main`'s loop never calls
`run_simulations` — but it also never deallocates the exits and never
terminates: for every amount of fuel it is still looping over the same set,
instead of releasing the allocations and proceeding as the claim states. -/
theorem C1_static_inaccessible_never_skipped (fuel : Nat) :
    ∃ evs, mainRun cliStatic setInaccessible fuel [] 0 0 =
      LoopResult.outOfFuel evs ∧
      Event.runSimsCalled ∉ evs ∧ Event.deallocExits ∉ evs :=
  static_inaccessible_loops fuel 0 0

end Varas
